import Mathlib

/-!
Shallow embedding of the reversi_cython training core.

Covered source files:
* `src/matching/elorating.py` — the Elo rating model (`EloRating`);
* `src/strategy/qlearning.py` — the tabular Q-learning agent (`QLearning`);
* `src/QL_training.py` / `src/QL_training_mp.py` — the match driver
  (`matching`) and the checkpoint-log lines of the two orchestrators.

Python floats are modelled as real numbers (`ℝ`) in the Elo model, where the
source applies the transcendental `pow(10, x)`, and as rationals (`ℚ`) in the
Q-learning model, where every operation is field arithmetic.  Python `dict`
lookups that raise `KeyError` on a missing key are modelled as `Option`
results; `dict.get(k, 0)` is modelled as `Option.getD`.  The Cython board
engine (`bitboard`) is not part of the repository sources; it is represented
by an opaque record of the operations the strategies call on it.
-/

set_option maxHeartbeats 1000000

/-! ## Elo rating model, from `src/matching/elorating.py` -/

/-- The rating dictionary `self._rating : dict[str, float]`, as a partial map:
`none` models an absent key (whose direct indexing raises `KeyError`). -/
abbrev RatingMap := String → Option ℝ

namespace EloRating

/-- `INIT_RATING = 1500`. -/
def INIT_RATING : ℝ := 1500

/-- `K = 16`. -/
def K : ℝ := 16

/-- The member-initialisation loop of `EloRating.__init__`:
for each listed member absent from the loaded dictionary, set it to
`INIT_RATING`; members already present are kept. -/
def initialize_members (loaded : RatingMap) (members : List String) : RatingMap :=
  members.foldl
    (fun m mem => if (m mem).isSome then m else Function.update m mem (some INIT_RATING))
    loaded

/-- `EloRating.win_lose_ratio(member1, member2)`:
`1 / (pow(10, (rating[member2] - rating[member1]) / 400) + 1)`.
The source indexes the dictionary directly (first `member2`, then `member1`),
so a missing key is a `KeyError`, modelled as `none`. -/
noncomputable def win_lose_ratio (m : RatingMap) (member1 member2 : String) : Option ℝ :=
  match m member2, m member1 with
  | some r2, some r1 => some (1 / ((10 : ℝ) ^ ((r2 - r1) / 400) + 1))
  | _, _ => none

/-- `EloRating.update_rating(member1, member2, number_game, cnt_mbr1_win)`:
computes both expected scores from the current dictionary, then writes
`member1`'s new rating, then `member2`'s (reading the dictionary again for the
base values, as the source does).  A missing key anywhere is `none`. -/
noncomputable def update_rating (m : RatingMap) (member1 member2 : String)
    (number_game cnt_mbr1_win : ℤ) : Option RatingMap :=
  let cnt_mbr2_win : ℤ := number_game - cnt_mbr1_win
  match win_lose_ratio m member1 member2, win_lose_ratio m member2 member1 with
  | some pre_prblty_1, some pre_prblty_2 =>
    let expected_win_1 := pre_prblty_1 * (number_game : ℝ)
    let expected_win_2 := pre_prblty_2 * (number_game : ℝ)
    match m member1 with
    | some r1 =>
      let m1 := Function.update m member1
        (some (r1 + K * ((cnt_mbr1_win : ℝ) - expected_win_1)))
      match m1 member2 with
      | some r2 =>
        some (Function.update m1 member2
          (some (r2 + K * ((cnt_mbr2_win : ℝ) - expected_win_2))))
      | none => none
    | none => none
  | _, _ => none

end EloRating

/-! ## Q-learning agent, from `src/strategy/qlearning.py` -/

/-- A mover-relative board observation: the pair of bitboards returned by
`return_player_board` / `simulate_play`. -/
abbrev PlayerBoard := Nat × Nat

/-- A key of the Q-value dictionary: `(state, action)`. -/
abbrev QKey := PlayerBoard × Nat

/-- `self._Q_values : dict[(state, action), float]` as a partial map. -/
abbrev QTable := QKey → Option ℚ

/-- Modelled from the spec: the excluded Cython board engine (`bitboard`),
of which the repository sources only contain call sites.  Each field is an
opaque operation with the arity used by `qlearning.py`:
`reversible_area_list1` is the one-argument legal-move enumeration
`reversible_area_list(turn)` for the live board, `reversible_area_list` the
three-argument form on explicit bitboards, `reversible_area` the legal-move
bitboard (zero iff the given side has no reversible move), `count_disks` the
pair of disk counts, `simulate_play` the pure one-move simulation and
`return_player_board` the mover-relative observation. -/
structure Othello where
  turn : Nat
  reversible_area_list1 : Nat → List Nat
  reversible_area_list : Nat → Nat → Nat → List Nat
  reversible_area : Nat → Nat → Nat → Nat
  count_disks : Nat → Nat → Nat × Nat
  simulate_play : Nat → Nat → PlayerBoard
  return_player_board : Nat → PlayerBoard

/-- The `QLearning` agent state: hyperparameters, the value table, and the
attributes `self._turn`, `self._othello`, `self._possible_actions` that
`put_disk` assigns before the selection/update steps. -/
structure QLearning where
  ALPHA : ℚ
  GAMMA : ℚ
  EPSILON : ℚ
  Q_values : QTable
  turn : Nat
  othello : Othello
  possible_actions : List Nat

/-- `self._Q_values.get((state, action), 0)`. -/
def qget (Q : QTable) (k : QKey) : ℚ := (Q k).getD 0

/-- The list `[self._Q_values.get((next_state, a), 0) for a in l]`. -/
def next_q_list (Q : QTable) (next_state : PlayerBoard) (l : List Nat) : List ℚ :=
  l.map (fun a => qget Q (next_state, a))

/-- The `possible_actions` computed at the top of `update_q_value`: the
opponent's legal actions at `next_state`, obtained by calling
`reversible_area_list(turn ^ 1, ...)` with the two boards ordered by turn. -/
def opponent_moves (self : QLearning) (next_state : PlayerBoard) : List Nat :=
  if self.turn = 0 then
    self.othello.reversible_area_list (self.turn ^^^ 1) next_state.1 next_state.2
  else
    self.othello.reversible_area_list (self.turn ^^^ 1) next_state.2 next_state.1

/-- The `max_q_next_state` local of `update_q_value`: minus the maximum stored
value over the opponent's legal actions at `next_state` (Python's `max` over a
nonempty list is a left fold of the binary `max`), or, when the opponent has
no legal action, minus the stored value of `(next_state, action)`. -/
def max_q_next_state_val (self : QLearning) (action : Nat) (next_state : PlayerBoard) : ℚ :=
  match next_q_list self.Q_values next_state (opponent_moves self next_state) with
  | [] => -1 * qget self.Q_values (next_state, action)
  | q :: qs => -1 * List.foldl max q qs

/-- `QLearning.update_q_value(state, action, reward, next_state)`:
writes `(1 - α)·Q(s,a) + α·(reward + γ·max_q_next_state)` into the table. -/
def update_q_value (self : QLearning) (state : PlayerBoard) (action : Nat)
    (reward : ℚ) (next_state : PlayerBoard) : QLearning :=
  let max_q_next_state := max_q_next_state_val self action next_state
  let q_value := qget self.Q_values (state, action)
  { self with
    Q_values := Function.update self.Q_values (state, action)
      (some ((1 - self.ALPHA) * q_value
        + self.ALPHA * (reward + self.GAMMA * max_q_next_state))) }

/-- `random.choice(l)`, with the random draw supplied as an index: the chosen
element is `l[idx % len(l)]` (every index hits exactly one list position). -/
def random_choice (idx : Nat) (l : List Nat) : Nat := l.getD (idx % l.length) 0

/-- The random draws consumed by one `select_action` call: the float compared
against ε and the index used by the single `random.choice` that follows. -/
structure Rng where
  rand_float : ℚ
  choice_idx : Nat

/-- `QLearning.select_action(state, possible_actions)`.  Note the source's
`all(q == 0 for q in q_values)` iterates over the DICTIONARY KEYS, i.e. over
the actions themselves, not over the stored values; the embedding keeps that
behaviour (`p.1`, the key, is compared with `0`).  The dictionary built from
the distinct legal actions is modelled as the association list in insertion
order. -/
def select_action (self : QLearning) (state : PlayerBoard)
    (possible_actions : List Nat) (rng : Rng) : Nat :=
  if rng.rand_float < self.EPSILON then
    random_choice rng.choice_idx possible_actions
  else
    let q_values := possible_actions.map (fun a => (a, qget self.Q_values (state, a)))
    if q_values.all (fun p => p.1 == 0) then
      random_choice rng.choice_idx self.possible_actions
    else
      let max_q_value : ℚ :=
        match q_values.map Prod.snd with
        | [] => 0
        | q :: qs => List.foldl max q qs
      random_choice rng.choice_idx
        ((q_values.filter (fun p => p.2 == max_q_value)).map Prod.fst)

/-- The assignments at the top of `put_disk`: `self._turn = othello.turn`,
`self._othello = othello`,
`self._possible_actions = othello.reversible_area_list(turn)`. -/
def put_disk_env (self : QLearning) (othello : Othello) : QLearning :=
  { self with
    turn := othello.turn
    othello := othello
    possible_actions := othello.reversible_area_list1 othello.turn }

/-- `QLearning.put_disk(othello)`: selects an action, simulates it, computes
the terminal-only reward (final disk margin when neither side can move or the
board is full, else 0) and applies the Q-update.  Returns the action and the
updated agent. -/
def put_disk (self : QLearning) (othello : Othello) (rng : Rng) : Nat × QLearning :=
  let self1 := put_disk_env self othello
  let state := othello.return_player_board othello.turn
  let action := select_action self1 state self1.possible_actions rng
  let next_state := othello.simulate_play othello.turn action
  let po :=
    if othello.turn = 0 then othello.count_disks next_state.1 next_state.2
    else othello.count_disks next_state.2 next_state.1
  let black :=
    if othello.turn = 0 then othello.reversible_area 0 next_state.1 next_state.2
    else othello.reversible_area 0 next_state.2 next_state.1
  let white :=
    if othello.turn = 0 then othello.reversible_area 1 next_state.1 next_state.2
    else othello.reversible_area 1 next_state.2 next_state.1
  let reward : ℚ :=
    if (black = 0 ∧ white = 0) ∨ po.1 + po.2 = 64 then (po.1 : ℚ) - (po.2 : ℚ) else 0
  (action, update_q_value self1 state action reward next_state)

/-! ## Match driver, from `src/QL_training.py` and `src/QL_training_mp.py` -/

/-- The result record returned by `matching`:
`(strategy1, strategy2, win, lose, drew)`. -/
abbrev MatchResult := String × String × Nat × Nat × Nat

/-- `matching(strategies)` of `src/QL_training.py`.  `set_match` models
`set_match(strategy1, strategy2, color)` together with its read/write of the
module-global `Q_values` (type parameter `QV`), returning the game's result
string and the new table.  An equal pair returns `None` before any game is
played, leaving the table untouched. -/
def matching {QV : Type} (set_match : String → String → String → QV → String × QV)
    (strategies : String × String) (Q : QV) : Option MatchResult × QV :=
  let strategy1 := strategies.1
  let strategy2 := strategies.2
  if strategy1 = strategy2 then (none, Q)
  else
    let g1 := set_match strategy1 strategy2 "black" Q
    let win1 : Nat := if g1.1 = "WIN" then 1 else 0
    let lose1 : Nat := if g1.1 = "LOSE" then 1 else 0
    let drew1 : Nat := if g1.1 = "DRAW" then 1 else 0
    let g2 := set_match strategy1 strategy2 "white" g1.2
    let win := win1 + (if g2.1 = "WIN" then 1 else 0)
    let lose := lose1 + (if g2.1 = "LOSE" then 1 else 0)
    let drew := drew1 + (if g2.1 = "DRAW" then 1 else 0)
    (some (strategy1, strategy2, win, lose, drew), g2.2)

/-- The per-color loop state of `matching` in `src/QL_training_mp.py`:
the three counters and the local `Q_values` reference. -/
structure MatchAcc (QV : Type) where
  win : Nat
  lose : Nat
  drew : Nat
  Q : QV

/-- One iteration of the `for color in ["black", "white"]` loop of the
multiprocess `matching`: play one game, then the `if/elif/elif` chain on the
result string. -/
def matching_mp_step {QV : Type} (play_game : String → String → String → QV → String × QV)
    (strategy1 strategy2 : String) (acc : MatchAcc QV) (color : String) : MatchAcc QV :=
  let g := play_game strategy1 strategy2 color acc.Q
  if g.1 = "WIN" then { acc with win := acc.win + 1, Q := g.2 }
  else if g.1 = "LOSE" then { acc with lose := acc.lose + 1, Q := g.2 }
  else if g.1 = "DRAW" then { acc with drew := acc.drew + 1, Q := g.2 }
  else { acc with Q := g.2 }

/-- `matching(strategies)` of `src/QL_training_mp.py`: the tuple also carries
the shared table; an equal pair returns `None` before the color loop runs. -/
def matching_mp {QV : Type} (play_game : String → String → String → QV → String × QV)
    (strategies : String × String × QV) : Option MatchResult × QV :=
  let strategy1 := strategies.1
  let strategy2 := strategies.2.1
  let Q := strategies.2.2
  if strategy1 = strategy2 then (none, Q)
  else
    let acc := List.foldl (matching_mp_step play_game strategy1 strategy2)
      ⟨0, 0, 0, Q⟩ ["black", "white"]
    (some (strategy1, strategy2, acc.win, acc.lose, acc.drew), acc.Q)

/-! ## Checkpoint-log lines of the two orchestrators -/

/-- Python's `"{:>15}".format(s)`: right-align `s` in a field of width 15,
leaving longer strings unchanged. -/
def format_right15 (s : List Char) : List Char :=
  if s.length < 15 then List.replicate (15 - s.length) ' ' ++ s else s

/-- The line `runby1` (sequential orchestrator, `src/QL_training.py`) appends
to `averageQ.txt` when `i % 5000 == 0`:
`"{:>15}".format(len(Q_values.values())) + ", " + str(average) + "\n"`,
with the rendered average supplied as a character list. -/
def runby1_log_line (table_size : Nat) (ave : List Char) : List Char :=
  format_right15 (Nat.repr table_size).toList ++ (", ").toList ++ ave ++ ['\n']

/-- The line the multiprocess orchestrator `runMP` (`src/QL_training_mp.py`)
appends to `averageQ.txt` after every 5000 consumed results:
`str(average) + "\n"` — the table-size field is absent. -/
def runMP_log_line (ave : List Char) : List Char := ave ++ ['\n']

/-- The guard around the `runMP` checkpoint write: the whole block sits under
`if plot:`, so with `plot=False` no line is ever appended. -/
def runMP_checkpoint (plot : Bool) (ave : List Char) : Option (List Char) :=
  if plot then some (runMP_log_line ave) else none

/-- The sequential orchestrator's checkpoint trigger: `i % 5000 == 0` for the
zero-based fixture index `i`. -/
def runby1_logs_at (i : Nat) : Bool := i % 5000 == 0

/-! ## Concrete configurations used by the witness theorems -/

/-- A rating dictionary holding `A ↦ 1500` and `B ↦ 1600`. -/
noncomputable def elo_map_AB : RatingMap :=
  fun x => if x = "A" then some 1500 else if x = "B" then some 1600 else none

/-- A rating dictionary holding `A ↦ 1500` and `B ↦ 1500`. -/
noncomputable def elo_map_eq : RatingMap :=
  fun x => if x = "A" then some 1500 else if x = "B" then some 1500 else none

/-- A rating dictionary holding only `A ↦ 1500`. -/
noncomputable def elo_map_A : RatingMap :=
  fun x => if x = "A" then some 1500 else none

/-- A concrete engine: one legal action `3` on the live board, opponent
answers `5` or `7`, every simulated position counts `40` versus `24` disks
with no reversible move for either colour. -/
def oth_w : Othello where
  turn := 0
  reversible_area_list1 := fun _ => [3]
  reversible_area_list := fun _ _ _ => [5, 7]
  reversible_area := fun _ _ _ => 0
  count_disks := fun _ _ => (40, 24)
  simulate_play := fun _ _ => (9, 9)
  return_player_board := fun _ => (1, 2)

/-- A fresh agent (`α = 1/2`, `γ = 9/10`, `ε = 1/10`, empty table) attached to
`oth_w`. -/
def ql_w : QLearning where
  ALPHA := 1/2
  GAMMA := 9/10
  EPSILON := 1/10
  Q_values := fun _ => none
  turn := 0
  othello := oth_w
  possible_actions := [3]

/-- The agent of `ql_w` with stored legal actions `[2, 3]`. -/
def ql_w5 : QLearning :=
  { ql_w with possible_actions := [2, 3] }

/-- A random draw that lands in the greedy branch (`1/2 ≥ ε`) and indexes the
second element of a choice list. -/
def rng_w5 : Rng where
  rand_float := 1/2
  choice_idx := 1

/-- A random draw that lands in the greedy branch and indexes the first
element of a choice list. -/
def rng_w : Rng where
  rand_float := 1/2
  choice_idx := 0

/-- A game oracle whose every game ends in `"WIN"` and leaves the table
untouched. -/
def set_match_w : String → String → String → Unit → String × Unit :=
  fun _ _ _ q => ("WIN", q)

/-- A variant of `ql_w` with integral hyperparameters (`α = 1`, `γ = 2`,
`ε = 0`), so every rational in a concrete run is already in lowest terms. -/
def ql_c2 : QLearning where
  ALPHA := 1
  GAMMA := 2
  EPSILON := 0
  Q_values := fun _ => none
  turn := 0
  othello := oth_w
  possible_actions := [3]

/-- A greedy draw (`5 ≥ ε`) indexing the first element of a choice list. -/
def rng_c2 : Rng where
  rand_float := 5
  choice_idx := 0

/-! ## Helper lemmas for the Elo model -/

theorem win_lose_ratio_eq (m : RatingMap) (a b : String) (ra rb : ℝ)
    (ha : m a = some ra) (hb : m b = some rb) :
    EloRating.win_lose_ratio m a b = some (1 / ((10 : ℝ) ^ ((rb - ra) / 400) + 1)) := by
  simp [EloRating.win_lose_ratio, ha, hb]

theorem win_lose_ratio_pair (ra rb : ℝ) :
    1 / ((10 : ℝ) ^ ((rb - ra) / 400) + 1)
      + 1 / ((10 : ℝ) ^ ((ra - rb) / 400) + 1) = 1 := by
  have h10 : (0 : ℝ) < 10 := by norm_num
  have hypos : 0 < (10 : ℝ) ^ ((rb - ra) / 400) := Real.rpow_pos_of_pos h10 _
  have hneg : (10 : ℝ) ^ ((ra - rb) / 400) = ((10 : ℝ) ^ ((rb - ra) / 400))⁻¹ := by
    rw [show (ra - rb) / 400 = -((rb - ra) / 400) by ring,
      Real.rpow_neg (le_of_lt h10)]
  rw [hneg]
  have h1 : (10 : ℝ) ^ ((rb - ra) / 400) + 1 ≠ 0 := by positivity
  have h2 : ((10 : ℝ) ^ ((rb - ra) / 400))⁻¹ + 1 ≠ 0 := by positivity
  have h3 : (10 : ℝ) ^ ((rb - ra) / 400) ≠ 0 := ne_of_gt hypos
  field_simp
  ring

theorem update_rating_eq (m : RatingMap) (a b : String) (n w : ℤ) (ra rb : ℝ)
    (hab : a ≠ b) (ha : m a = some ra) (hb : m b = some rb) :
    EloRating.update_rating m a b n w =
      some (Function.update
        (Function.update m a
          (some (ra + EloRating.K
            * ((w : ℝ) - 1 / ((10 : ℝ) ^ ((rb - ra) / 400) + 1) * n))))
        b (some (rb + EloRating.K
            * (((n - w : ℤ) : ℝ) - 1 / ((10 : ℝ) ^ ((ra - rb) / 400) + 1) * n)))) := by
  have h1 := win_lose_ratio_eq m a b ra rb ha hb
  have h2 := win_lose_ratio_eq m b a rb ra hb ha
  have hupd : Function.update m a
      (some (ra + EloRating.K
        * ((w : ℝ) - 1 / ((10 : ℝ) ^ ((rb - ra) / 400) + 1) * n))) b = some rb := by
    rw [Function.update_noteq (Ne.symm hab)]; exact hb
  simp only [EloRating.update_rating, h1, h2, ha, hupd]

theorem win_lose_ratio_none (m : RatingMap) (a b : String)
    (h : m a = none ∨ m b = none) : EloRating.win_lose_ratio m a b = none := by
  rcases h with h | h
  · cases hb : m b <;> simp [EloRating.win_lose_ratio, h, hb]
  · simp [EloRating.win_lose_ratio, h]

theorem initialize_members_cons (m : RatingMap) (hd : String) (tl : List String) :
    EloRating.initialize_members m (hd :: tl) =
      EloRating.initialize_members
        (if (m hd).isSome then m
          else Function.update m hd (some EloRating.INIT_RATING)) tl := rfl

theorem initialize_members_preserved (members : List String) (m : RatingMap)
    (mem : String) (v : ℝ) (h : m mem = some v) :
    EloRating.initialize_members m members mem = some v := by
  induction members generalizing m with
  | nil => exact h
  | cons hd tl ih =>
    rw [initialize_members_cons]
    by_cases hh : (m hd).isSome
    · rw [if_pos hh]; exact ih m h
    · rw [if_neg hh]
      by_cases hhd : hd = mem
      · subst hhd; rw [h] at hh; simp at hh
      · refine ih _ ?_
        rw [Function.update_noteq (Ne.symm hhd)]
        exact h

/-- C4: for agent names `a` and `b` present in the rating map,
`win_lose_ratio(a, b)` equals `1 / (1 + 10^((rating[b] - rating[a]) / 400))`,
and `win_lose_ratio(a, b) + win_lose_ratio(b, a) = 1`. -/
theorem elo_win_lose_ratio_spec (m : RatingMap) (a b : String) (ra rb : ℝ)
    (ha : m a = some ra) (hb : m b = some rb) :
    EloRating.win_lose_ratio m a b
        = some (1 / (1 + (10 : ℝ) ^ ((rb - ra) / 400))) ∧
    ∃ p q, EloRating.win_lose_ratio m a b = some p ∧
      EloRating.win_lose_ratio m b a = some q ∧ p + q = 1 := by
  refine ⟨?_, ?_⟩
  · rw [win_lose_ratio_eq m a b ra rb ha hb, add_comm]
  · exact ⟨_, _, win_lose_ratio_eq m a b ra rb ha hb,
      win_lose_ratio_eq m b a rb ra hb ha, win_lose_ratio_pair ra rb⟩

/-- Witness for C4 at the concrete dictionary `A ↦ 1500, B ↦ 1600`. -/
theorem elo_win_lose_ratio_spec_witness :
    EloRating.win_lose_ratio elo_map_AB "A" "B"
        = some (1 / (1 + (10 : ℝ) ^ (((1600 : ℝ) - 1500) / 400))) ∧
    ∃ p q, EloRating.win_lose_ratio elo_map_AB "A" "B" = some p ∧
      EloRating.win_lose_ratio elo_map_AB "B" "A" = some q ∧ p + q = 1 :=
  elo_win_lose_ratio_spec elo_map_AB "A" "B" 1500 1600 (by simp [elo_map_AB])
    (by simp [elo_map_AB])

/-- C3: `update_rating(member1, member2, number_game, cnt_mbr1_win)` computes
both expected win counts from the same pre-update ratings before either
rating is written, then adds `K·(actual wins − expected wins)` with `K = 16`
to each member; starting from `1500.0` each, `update_rating(A, B, 2, 2)`
yields `A = 1516.0`, `B = 1484.0`. -/
theorem elo_update_rating_spec :
    (∀ (m : RatingMap) (a b : String) (n w : ℤ) (ra rb : ℝ), a ≠ b →
      m a = some ra → m b = some rb →
      ∃ m', EloRating.update_rating m a b n w = some m' ∧
        m' a = some (ra + 16 * ((w : ℝ)
          - 1 / ((10 : ℝ) ^ ((rb - ra) / 400) + 1) * n)) ∧
        m' b = some (rb + 16 * (((n - w : ℤ) : ℝ)
          - 1 / ((10 : ℝ) ^ ((ra - rb) / 400) + 1) * n)) ∧
        ∀ x, x ≠ a → x ≠ b → m' x = m x) ∧
    (∀ (m : RatingMap) (a b : String), a ≠ b →
      m a = some 1500 → m b = some 1500 →
      ∃ m', EloRating.update_rating m a b 2 2 = some m' ∧
        m' a = some 1516 ∧ m' b = some 1484) := by
  have hK : EloRating.K = (16 : ℝ) := rfl
  constructor
  · intro m a b n w ra rb hab ha hb
    refine ⟨_, update_rating_eq m a b n w ra rb hab ha hb, ?_, ?_, ?_⟩
    · rw [Function.update_noteq hab, Function.update_same, hK]
    · rw [Function.update_same, hK]
    · intro x hxa hxb
      rw [Function.update_noteq hxb, Function.update_noteq hxa]
  · intro m a b hab ha hb
    refine ⟨_, update_rating_eq m a b 2 2 1500 1500 hab ha hb, ?_, ?_⟩
    · rw [Function.update_noteq hab, Function.update_same]
      have h0 : ((1500 : ℝ) - 1500) / 400 = 0 := by norm_num
      rw [h0, Real.rpow_zero, hK]
      norm_num
    · rw [Function.update_same]
      have h0 : ((1500 : ℝ) - 1500) / 400 = 0 := by norm_num
      rw [h0, Real.rpow_zero, hK]
      norm_num

/-- Witness for C3: both members at `1500.0`, two games, two wins for the
first member. -/
theorem elo_update_rating_spec_witness :
    ∃ m', EloRating.update_rating elo_map_eq "A" "B" 2 2 = some m' ∧
      m' "A" = some 1516 ∧ m' "B" = some 1484 :=
  elo_update_rating_spec.2 elo_map_eq "A" "B" (by decide) rfl rfl

/-- C10: `update_rating` conserves the total rating mass: for distinct
members `a`, `b` present in the map, the sum of the ratings over any member
set containing them is unchanged, and no other member's rating changes. -/
theorem elo_update_rating_conserves_sum (m : RatingMap) (a b : String)
    (n w : ℤ) (s : Finset String) (hab : a ≠ b) (has : a ∈ s) (hbs : b ∈ s)
    (ra rb : ℝ) (ha : m a = some ra) (hb : m b = some rb) :
    ∃ m', EloRating.update_rating m a b n w = some m' ∧
      (∑ x in s, ((m' x).getD 0)) = (∑ x in s, ((m x).getD 0)) ∧
      ∀ x, x ≠ a → x ≠ b → m' x = m x := by
  have h := update_rating_eq m a b n w ra rb hab ha hb
  refine ⟨_, h, ?_, ?_⟩
  · have hp := win_lose_ratio_pair ra rb
    have hbs' : b ∈ s.erase a := Finset.mem_erase.2 ⟨Ne.symm hab, hbs⟩
    set va : ℝ := ra + EloRating.K
      * ((w : ℝ) - 1 / ((10 : ℝ) ^ ((rb - ra) / 400) + 1) * n) with hva
    set vb : ℝ := rb + EloRating.K
      * (((n - w : ℤ) : ℝ) - 1 / ((10 : ℝ) ^ ((ra - rb) / 400) + 1) * n) with hvb
    have hkey : va + vb = ra + rb := by
      rw [hva, hvb]
      have hc : ((n - w : ℤ) : ℝ) = (n : ℝ) - (w : ℝ) := by push_cast; ring
      rw [hc]
      linear_combination (-(EloRating.K * (n : ℝ))) * hp
    have hfa : Function.update (Function.update m a (some va)) b (some vb) a
        = some va := by
      rw [Function.update_noteq hab, Function.update_same]
    have hfb : Function.update (Function.update m a (some va)) b (some vb) b
        = some vb := by
      rw [Function.update_same]
    have hrest : ∀ x ∈ (s.erase a).erase b,
        ((Function.update (Function.update m a (some va)) b (some vb) x).getD 0)
          = ((m x).getD 0) := by
      intro x hx
      have hxb : x ≠ b := (Finset.mem_erase.1 hx).1
      have hxa : x ≠ a := (Finset.mem_erase.1 (Finset.mem_erase.1 hx).2).1
      rw [Function.update_noteq hxb, Function.update_noteq hxa]
    rw [← Finset.add_sum_erase s _ has, ← Finset.add_sum_erase (s.erase a) _ hbs',
      ← Finset.add_sum_erase s (fun x => (m x).getD 0) has,
      ← Finset.add_sum_erase (s.erase a) (fun x => (m x).getD 0) hbs',
      Finset.sum_congr rfl hrest, hfa, hfb, ha, hb]
    simp only [Option.getD_some]
    linarith [hkey]
  · intro x hxa hxb
    rw [Function.update_noteq hxb, Function.update_noteq hxa]

/-- Witness for C10: `A ↦ 1500, B ↦ 1600` over the member set `{A, B}`. -/
theorem elo_update_rating_conserves_sum_witness :
    ∃ m', EloRating.update_rating elo_map_AB "A" "B" 2 1 = some m' ∧
      (∑ x in ({"A", "B"} : Finset String), ((m' x).getD 0))
        = (∑ x in ({"A", "B"} : Finset String), ((elo_map_AB x).getD 0)) ∧
      ∀ x, x ≠ "A" → x ≠ "B" → m' x = elo_map_AB x :=
  elo_update_rating_conserves_sum elo_map_AB "A" "B" 2 1 _ (by decide)
    (by simp) (by simp) 1500 1600 rfl rfl

/-- C6 counterexample: on the empty rating dictionary, referencing the
unknown names `A` and `B` makes `win_lose_ratio` and `update_rating` fail
(`KeyError`, modelled as `none`); neither operation auto-initializes the
missing entry to 1500. -/
theorem elo_unknown_member_not_initialized :
    EloRating.win_lose_ratio (fun _ => none) "A" "B" = none ∧
    EloRating.update_rating (fun _ => none) "A" "B" 2 1 = none :=
  ⟨rfl, rfl⟩

/-- C6 amended: if a referenced name is absent from the rating map,
`win_lose_ratio` and `update_rating` fail (`KeyError`) rather than
auto-initializing it; only `__init__` initializes the listed members that are
absent from the loaded map to the default rating 1500. -/
theorem elo_absent_member_behavior :
    (∀ (m : RatingMap) (a b : String), m a = none ∨ m b = none →
      EloRating.win_lose_ratio m a b = none ∧
      ∀ n w, EloRating.update_rating m a b n w = none) ∧
    (∀ (members : List String) (loaded : RatingMap) (mem : String),
      mem ∈ members → loaded mem = none →
      EloRating.initialize_members loaded members mem
        = some EloRating.INIT_RATING) := by
  constructor
  · intro m a b h
    have hw := win_lose_ratio_none m a b h
    refine ⟨hw, ?_⟩
    intro n w
    simp only [EloRating.update_rating, hw]
  · intro members
    induction members with
    | nil =>
      intro loaded mem hmem _
      simp at hmem
    | cons hd tl ih =>
      intro loaded mem hmem hnone
      rw [initialize_members_cons]
      by_cases hh : mem = hd
      · subst hh
        rw [hnone]
        simp only [Option.isSome_none, Bool.false_eq_true, if_false]
        exact initialize_members_preserved tl _ mem _ (Function.update_same mem _ _)
      · have hmem' : mem ∈ tl := by
          rcases List.mem_cons.1 hmem with h | h
          · exact absurd h hh
          · exact h
        by_cases hh2 : (loaded hd).isSome
        · rw [if_pos hh2]
          exact ih loaded mem hmem' hnone
        · rw [if_neg hh2]
          refine ih _ mem hmem' ?_
          rw [Function.update_noteq hh]
          exact hnone

/-- Witness for C6 (amended): a map holding only `A`, referenced with the
unknown `B`; and `__init__` over the empty map with members `[A, B]`. -/
theorem elo_absent_member_behavior_witness :
    (EloRating.win_lose_ratio elo_map_A "A" "B" = none ∧
      ∀ n w, EloRating.update_rating elo_map_A "A" "B" n w = none) ∧
    EloRating.initialize_members (fun _ => none) ["A", "B"] "B"
      = some EloRating.INIT_RATING :=
  ⟨elo_absent_member_behavior.1 elo_map_A "A" "B" (Or.inr rfl),
   elo_absent_member_behavior.2 ["A", "B"] (fun _ => none) "B" (by simp) rfl⟩

/-! ## Helper lemmas for the Q-learning model -/

theorem foldl_max_mem (x : ℚ) (l : List ℚ) :
    List.foldl max x l = x ∨ List.foldl max x l ∈ l := by
  induction l generalizing x with
  | nil => exact Or.inl rfl
  | cons y ys ih =>
    rw [List.foldl_cons]
    rcases ih (max x y) with h | h
    · rcases max_choice x y with hm | hm
      · exact Or.inl (by rw [h, hm])
      · exact Or.inr (by rw [h, hm]; exact List.mem_cons_self y ys)
    · exact Or.inr (List.mem_cons_of_mem y h)

theorem le_foldl_max (x : ℚ) (l : List ℚ) :
    x ≤ List.foldl max x l ∧ ∀ y ∈ l, y ≤ List.foldl max x l := by
  induction l generalizing x with
  | nil => exact ⟨le_refl x, by simp⟩
  | cons z zs ih =>
    obtain ⟨h1, h2⟩ := ih (max x z)
    rw [List.foldl_cons]
    refine ⟨le_trans (le_max_left x z) h1, ?_⟩
    intro y hy
    rcases List.mem_cons.1 hy with h | h
    · subst h; exact le_trans (le_max_right x y) h1
    · exact h2 y h

/-- C1: `update_q_value(state, action, reward, next_state)` sets the table
entry for `(state, action)` to `(1-α)·q + α·(reward + γ·v)` where `q` is the
prior entry (0 if absent) and `v` is minus the maximum stored value over the
opponent's legal actions at `next_state` (each defaulting to 0), or, when the
opponent has no legal action, minus the stored value of
`(next_state, action)`. -/
theorem qlearning_update_q_value_spec (self : QLearning) (state : PlayerBoard)
    (action : Nat) (reward : ℚ) (next_state : PlayerBoard) :
    (opponent_moves self next_state = [] →
      (update_q_value self state action reward next_state).Q_values (state, action)
        = some ((1 - self.ALPHA) * qget self.Q_values (state, action)
            + self.ALPHA * (reward + self.GAMMA
              * (-(qget self.Q_values (next_state, action)))))) ∧
    (opponent_moves self next_state ≠ [] →
      ∃ v, (update_q_value self state action reward next_state).Q_values (state, action)
          = some ((1 - self.ALPHA) * qget self.Q_values (state, action)
              + self.ALPHA * (reward + self.GAMMA * (-v))) ∧
        (∃ b ∈ opponent_moves self next_state,
          v = qget self.Q_values (next_state, b)) ∧
        (∀ b ∈ opponent_moves self next_state,
          qget self.Q_values (next_state, b) ≤ v)) := by
  have hentry : (update_q_value self state action reward next_state).Q_values
      (state, action)
      = some ((1 - self.ALPHA) * qget self.Q_values (state, action)
          + self.ALPHA * (reward + self.GAMMA
            * max_q_next_state_val self action next_state)) := by
    simp only [update_q_value, Function.update_same]
  constructor
  · intro h
    have hv : max_q_next_state_val self action next_state
        = -1 * qget self.Q_values (next_state, action) := by
      simp only [max_q_next_state_val, h, next_q_list, List.map_nil]
    rw [hentry, hv, neg_one_mul]
  · intro h
    obtain ⟨a0, as, ha⟩ := List.exists_cons_of_ne_nil h
    have hv : max_q_next_state_val self action next_state
        = -1 * List.foldl max (qget self.Q_values (next_state, a0))
            (as.map fun b => qget self.Q_values (next_state, b)) := by
      simp only [max_q_next_state_val, ha, next_q_list, List.map_cons]
    refine ⟨List.foldl max (qget self.Q_values (next_state, a0))
        (as.map fun b => qget self.Q_values (next_state, b)), ?_, ?_, ?_⟩
    · rw [hentry, hv, neg_one_mul]
    · rcases foldl_max_mem (qget self.Q_values (next_state, a0))
          (as.map fun b => qget self.Q_values (next_state, b)) with hm | hm
      · exact ⟨a0, by rw [ha]; exact List.mem_cons_self a0 as, hm⟩
      · obtain ⟨b, hb, hbe⟩ := List.mem_map.1 hm
        exact ⟨b, by rw [ha]; exact List.mem_cons_of_mem a0 hb, hbe.symm⟩
    · intro b hb
      rw [ha] at hb
      rcases List.mem_cons.1 hb with h' | h'
      · subst h'
        exact (le_foldl_max _ _).1
      · exact (le_foldl_max _ _).2 _ (List.mem_map_of_mem _ h')

/-- Witness for C1: the agent `ql_w` updating `((1,2), 3)` with reward 16 at
next state `(9, 9)`, where the opponent's legal actions are `[5, 7]`. -/
theorem qlearning_update_q_value_spec_witness :
    ∃ v, (update_q_value ql_w (1, 2) 3 16 (9, 9)).Q_values ((1, 2), 3)
        = some ((1 - ql_w.ALPHA) * qget ql_w.Q_values ((1, 2), 3)
            + ql_w.ALPHA * (16 + ql_w.GAMMA * (-v))) ∧
      (∃ b ∈ opponent_moves ql_w (9, 9), v = qget ql_w.Q_values ((9, 9), b)) ∧
      (∀ b ∈ opponent_moves ql_w (9, 9), qget ql_w.Q_values ((9, 9), b) ≤ v) :=
  (qlearning_update_q_value_spec ql_w (1, 2) 3 16 (9, 9)).2 (by decide)

theorem random_choice_mem (idx : Nat) (l : List Nat) (h : l ≠ []) :
    random_choice idx l ∈ l := by
  have hlen : 0 < l.length := List.length_pos.2 h
  have hmod : idx % l.length < l.length := Nat.mod_lt _ hlen
  rw [random_choice, List.getD_eq_getElem?_getD, List.getElem?_eq_getElem hmod,
    Option.getD_some]
  exact List.getElem_mem hmod

theorem greedy_ties_all_zero (Q : QTable) (state : PlayerBoard) (l : List Nat)
    (h : ∀ a ∈ l, qget Q (state, a) = 0) :
    ((l.map (fun a => (a, qget Q (state, a)))).filter
      (fun p => p.2 == (0 : ℚ))).map Prod.fst = l := by
  induction l with
  | nil => rfl
  | cons a as ih =>
    have ha := h a (List.mem_cons_self a as)
    have hrest := ih (fun b hb => h b (List.mem_cons_of_mem a hb))
    simp only [List.map_cons, List.filter_cons, ha, beq_self_eq_true, if_true]
    rw [hrest]

/-- C5: in the greedy branch of `select_action`, when every stored value for
the legal actions is 0 (and the stored `_possible_actions` equal the passed
list, as in every call from `put_disk`), the returned action is still drawn
uniformly from the whole of `possible_actions`: whatever index the random
draw produces, the result is that position of `possible_actions`, hence a
member of it. -/
theorem qlearning_select_action_unexplored (self : QLearning)
    (state : PlayerBoard) (pa : List Nat) (rng : Rng)
    (hne : pa ≠ [])
    (hstored : self.possible_actions = pa)
    (heps : self.EPSILON ≤ rng.rand_float)
    (hq : ∀ a ∈ pa, qget self.Q_values (state, a) = 0) :
    select_action self state pa rng = random_choice rng.choice_idx pa ∧
    random_choice rng.choice_idx pa ∈ pa := by
  have hnotlt : ¬(rng.rand_float < self.EPSILON) := not_lt.2 heps
  refine ⟨?_, random_choice_mem _ _ hne⟩
  rw [select_action, if_neg hnotlt]
  by_cases hall : (pa.map (fun a => (a, qget self.Q_values (state, a)))).all
      (fun p => p.1 == 0)
  · rw [if_pos hall, hstored]
  · rw [if_neg hall]
    obtain ⟨a0, as, rfl⟩ := List.exists_cons_of_ne_nil hne
    have ha0 := hq a0 (List.mem_cons_self a0 as)
    have hzeros : ∀ y ∈ as.map (fun a => qget self.Q_values (state, a)), y = 0 := by
      intro y hy
      obtain ⟨b, hb, hbe⟩ := List.mem_map.1 hy
      rw [← hbe]
      exact hq b (List.mem_cons_of_mem a0 hb)
    have hmax : List.foldl max (qget self.Q_values (state, a0))
        (as.map fun a => qget self.Q_values (state, a)) = 0 := by
      rcases foldl_max_mem (qget self.Q_values (state, a0))
          (as.map fun a => qget self.Q_values (state, a)) with hm | hm
      · rw [hm, ha0]
      · exact hzeros _ hm
    simp only [List.map_cons, List.map_map]
    have hcomp : (fun a => ((a, qget self.Q_values (state, a)).2)) =
        (fun a => qget self.Q_values (state, a)) := rfl
    rw [show ((Prod.snd ∘ fun a => (a, qget self.Q_values (state, a))) : Nat → ℚ)
        = (fun a => qget self.Q_values (state, a)) from rfl, hmax]
    have hties := greedy_ties_all_zero self.Q_values state (a0 :: as) hq
    simp only [List.map_cons] at hties
    rw [hties]

/-- Witness for C5: empty table, legal actions `[2, 3]`, greedy draw with
index 1 — the selection succeeds and hits position 1 of the full list. -/
theorem qlearning_select_action_unexplored_witness :
    select_action ql_w5 (1, 2) [2, 3] rng_w5 = random_choice rng_w5.choice_idx [2, 3] ∧
    random_choice rng_w5.choice_idx [2, 3] ∈ [2, 3] :=
  qlearning_select_action_unexplored ql_w5 (1, 2) [2, 3] rng_w5 (by decide) rfl
    (by norm_num [ql_w5, ql_w, rng_w5]) (by decide)

/-- C2: in `put_disk`, the reward passed to the Q-update is 0 unless the
simulated post-move position is terminal (neither black nor white has a
reversible move, or the disk counts sum to 64); at a terminal transition the
reward is the mover's disk count minus the opponent's. -/
theorem qlearning_put_disk_reward_spec (self : QLearning) (o : Othello) (rng : Rng)
    (state : PlayerBoard) (action : Nat) (next_state : PlayerBoard)
    (player opponent black white : Nat)
    (hstate : state = o.return_player_board o.turn)
    (haction : action = (put_disk self o rng).1)
    (hns : next_state = o.simulate_play o.turn action)
    (hpo : (player, opponent)
      = (if o.turn = 0 then o.count_disks next_state.1 next_state.2
          else o.count_disks next_state.2 next_state.1))
    (hblack : black = (if o.turn = 0 then o.reversible_area 0 next_state.1 next_state.2
          else o.reversible_area 0 next_state.2 next_state.1))
    (hwhite : white = (if o.turn = 0 then o.reversible_area 1 next_state.1 next_state.2
          else o.reversible_area 1 next_state.2 next_state.1)) :
    (¬((black = 0 ∧ white = 0) ∨ player + opponent = 64) →
      (put_disk self o rng).2.Q_values (state, action)
        = some ((1 - self.ALPHA) * qget self.Q_values (state, action)
            + self.ALPHA * (0 + self.GAMMA
              * max_q_next_state_val (put_disk_env self o) action next_state))) ∧
    (((black = 0 ∧ white = 0) ∨ player + opponent = 64) →
      (put_disk self o rng).2.Q_values (state, action)
        = some ((1 - self.ALPHA) * qget self.Q_values (state, action)
            + self.ALPHA * (((player : ℚ) - (opponent : ℚ)) + self.GAMMA
              * max_q_next_state_val (put_disk_env self o) action next_state))) := by
  subst hstate
  subst hns
  subst haction
  simp only [put_disk] at hpo hblack hwhite ⊢
  rw [← hpo, ← hblack, ← hwhite]
  dsimp only
  constructor
  · intro h
    rw [if_neg h]
    simp only [update_q_value, Function.update_same]
    rfl
  · intro h
    rw [if_pos h]
    simp only [update_q_value, Function.update_same]
    rfl

/-- Witness for C2: with `oth_w` every simulated position is terminal with
disk counts 40 versus 24, so the update carries the margin reward
`40 - 24 = 16`; the chosen action is 3 and the update lands on
`((1,2), 3)`. -/
theorem qlearning_put_disk_reward_spec_witness :
    ((0 = 0 ∧ 0 = 0) ∨ 40 + 24 = 64) ∧
    (put_disk ql_c2 oth_w rng_c2).2.Q_values ((1, 2), 3)
      = some ((1 - ql_c2.ALPHA) * qget ql_c2.Q_values ((1, 2), 3)
          + ql_c2.ALPHA * (((40 : ℚ) - (24 : ℚ)) + ql_c2.GAMMA
            * max_q_next_state_val (put_disk_env ql_c2 oth_w) 3 (9, 9))) :=
  ⟨by decide,
    (qlearning_put_disk_reward_spec ql_c2 oth_w rng_c2 (1, 2) 3 (9, 9) 40 24 0 0
      rfl rfl rfl rfl rfl rfl).2 (by decide)⟩

theorem matching_mp_step_sum {QV : Type}
    (play_game : String → String → String → QV → String × QV)
    (s1 s2 color : String) (acc : MatchAcc QV)
    (h : (play_game s1 s2 color acc.Q).1 = "WIN" ∨
      (play_game s1 s2 color acc.Q).1 = "LOSE" ∨
      (play_game s1 s2 color acc.Q).1 = "DRAW") :
    (matching_mp_step play_game s1 s2 acc color).win
      + (matching_mp_step play_game s1 s2 acc color).lose
      + (matching_mp_step play_game s1 s2 acc color).drew
      = acc.win + acc.lose + acc.drew + 1 := by
  simp only [matching_mp_step]
  split
  · dsimp only; omega
  · split
    · dsimp only; omega
    · split
      · dsimp only; omega
      · rename_i h1 h2 h3
        rcases h with h | h | h
        · exact absurd h h1
        · exact absurd h h2
        · exact absurd h h3

theorem matching_mp_step_preserves_q {QV : Type}
    (play_game : String → String → String → QV → String × QV)
    (s1 s2 color : String) (acc : MatchAcc QV) :
    (matching_mp_step play_game s1 s2 acc color).Q
      = (play_game s1 s2 color acc.Q).2 := by
  simp only [matching_mp_step]
  split
  · rfl
  · split
    · rfl
    · split
      · rfl
      · rfl

/-- C7: on distinct strategy names, both `matching` implementations play
exactly two games (one per starting colour) and return a result whose
win/lose/draw counts (naturals, hence non-negative) sum to exactly 2,
provided every game's terminal classification is WIN, LOSE or DRAW. -/
theorem matching_two_games_sum {QV : Type}
    (set_match play_game : String → String → String → QV → String × QV)
    (s1 s2 : String) (Q : QV)
    (hne : s1 ≠ s2)
    (hsm : ∀ a b c q, (set_match a b c q).1 = "WIN" ∨
      (set_match a b c q).1 = "LOSE" ∨ (set_match a b c q).1 = "DRAW")
    (hpg : ∀ a b c q, (play_game a b c q).1 = "WIN" ∨
      (play_game a b c q).1 = "LOSE" ∨ (play_game a b c q).1 = "DRAW") :
    (∃ w l d Q', matching set_match (s1, s2) Q = (some (s1, s2, w, l, d), Q') ∧
      w + l + d = 2) ∧
    (∃ w l d Q', matching_mp play_game (s1, s2, Q) = (some (s1, s2, w, l, d), Q') ∧
      w + l + d = 2) := by
  have hone : ∀ r : String, r = "WIN" ∨ r = "LOSE" ∨ r = "DRAW" →
      ((if r = "WIN" then 1 else 0) + (if r = "LOSE" then 1 else 0)
        + (if r = "DRAW" then 1 else 0) : Nat) = 1 := by
    intro r hr
    rcases hr with h | h | h <;> subst h <;> decide
  constructor
  · refine ⟨(if (set_match s1 s2 "black" Q).1 = "WIN" then 1 else 0)
        + (if (set_match s1 s2 "white" (set_match s1 s2 "black" Q).2).1 = "WIN"
            then 1 else 0),
      (if (set_match s1 s2 "black" Q).1 = "LOSE" then 1 else 0)
        + (if (set_match s1 s2 "white" (set_match s1 s2 "black" Q).2).1 = "LOSE"
            then 1 else 0),
      (if (set_match s1 s2 "black" Q).1 = "DRAW" then 1 else 0)
        + (if (set_match s1 s2 "white" (set_match s1 s2 "black" Q).2).1 = "DRAW"
            then 1 else 0),
      (set_match s1 s2 "white" (set_match s1 s2 "black" Q).2).2, ?_, ?_⟩
    · simp only [matching]
      rw [if_neg hne]
    · have e1 := hone (set_match s1 s2 "black" Q).1 (hsm s1 s2 "black" Q)
      have e2 := hone (set_match s1 s2 "white" (set_match s1 s2 "black" Q).2).1
        (hsm s1 s2 "white" (set_match s1 s2 "black" Q).2)
      omega
  · refine ⟨(List.foldl (matching_mp_step play_game s1 s2) ⟨0, 0, 0, Q⟩
        ["black", "white"]).win,
      (List.foldl (matching_mp_step play_game s1 s2) ⟨0, 0, 0, Q⟩
        ["black", "white"]).lose,
      (List.foldl (matching_mp_step play_game s1 s2) ⟨0, 0, 0, Q⟩
        ["black", "white"]).drew,
      (List.foldl (matching_mp_step play_game s1 s2) ⟨0, 0, 0, Q⟩
        ["black", "white"]).Q, ?_, ?_⟩
    · simp only [matching_mp]
      rw [if_neg hne]
    · have t1 := matching_mp_step_sum play_game s1 s2 "black"
        ⟨0, 0, 0, Q⟩ (hpg s1 s2 "black" Q)
      have t2 := matching_mp_step_sum play_game s1 s2 "white"
        (matching_mp_step play_game s1 s2 ⟨0, 0, 0, Q⟩ "black")
        (hpg s1 s2 "white" _)
      simp only [List.foldl_cons, List.foldl_nil]
      simp only [List.foldl_cons, List.foldl_nil] at t1 t2 ⊢
      omega

/-- Witness for C7: the always-"WIN" oracle on the fixture `("A", "B")`. -/
theorem matching_two_games_sum_witness :
    (∃ w l d Q', matching set_match_w ("A", "B") () = (some ("A", "B", w, l, d), Q') ∧
      w + l + d = 2) ∧
    (∃ w l d Q', matching_mp set_match_w ("A", "B", ()) = (some ("A", "B", w, l, d), Q') ∧
      w + l + d = 2) :=
  matching_two_games_sum set_match_w set_match_w "A" "B" () (by decide)
    (fun _ _ _ _ => Or.inl rfl) (fun _ _ _ _ => Or.inl rfl)

/-- C8: a fixture with equal strategy names is skipped: both `matching`
implementations return `None` and leave the table untouched, whatever the
game oracle is — in particular no game is played (the result does not depend
on the oracle) and nothing else is mutated (the rating model is not even an
input of `matching`; the caller updates it only from returned results). -/
theorem matching_same_strategy_skips {QV : Type}
    (set_match play_game : String → String → String → QV → String × QV)
    (s : String) (Q : QV) :
    matching set_match (s, s) Q = (none, Q) ∧
    matching_mp play_game (s, s, Q) = (none, Q) := by
  constructor
  · simp [matching]
  · simp [matching_mp]

/-- C9 counterexample: the checkpoint line the concurrent orchestrator
appends is only the rendered mean followed by a newline (here the mean
rendered as `0.5`), and it cannot be decomposed as
`<entry_count>, <mean_value>`: it contains no comma at all. -/
theorem runMP_log_line_lacks_entry_count :
    runMP_log_line ['0', '.', '5'] = ['0', '.', '5', '\n'] ∧
    ¬ ∃ cnt rest : List Char, ['0', '.', '5', '\n'] = cnt ++ ',' :: rest := by
  refine ⟨rfl, ?_⟩
  rintro ⟨cnt, rest, h⟩
  have hm : ',' ∈ cnt ++ ',' :: rest := by simp
  rw [← h] at hm
  exact absurd hm (by decide)

/-- C9 amended: in the sequential mode, whenever the zero-based fixture index
`i` satisfies `i % 5000 == 0` the orchestrator appends one line of the form
`<entry_count>, <mean_value>`, the count right-aligned to width 15; in the
concurrent mode the checkpoint block runs only when plotting is enabled and
the appended line is the mean alone, with no entry-count field. -/
theorem checkpoint_log_line_forms :
    (∀ (n : Nat) (ave : List Char), ∃ cnt : List Char,
      runby1_log_line n ave = cnt ++ ',' :: ' ' :: (ave ++ ['\n']) ∧
      15 ≤ cnt.length ∧
      cnt.drop (cnt.length - (Nat.repr n).toList.length) = (Nat.repr n).toList) ∧
    (∀ ave : List Char, runMP_log_line ave = ave ++ ['\n']) ∧
    (∀ ave : List Char, runMP_checkpoint false ave = none) ∧
    (∀ i : Nat, runby1_logs_at i = true ↔ i % 5000 = 0) := by
  refine ⟨?_, fun ave => rfl, fun ave => rfl, fun i => by simp [runby1_logs_at]⟩
  intro n ave
  refine ⟨format_right15 (Nat.repr n).toList, ?_, ?_, ?_⟩
  · simp only [runby1_log_line, List.append_assoc]
    rfl
  · by_cases h : (Nat.repr n).toList.length < 15
    · rw [format_right15, if_pos h]
      simp only [List.length_append, List.length_replicate]
      omega
    · rw [format_right15, if_neg h]
      omega
  · by_cases h : (Nat.repr n).toList.length < 15
    · rw [format_right15, if_pos h]
      have hlen : (List.replicate (15 - (Nat.repr n).toList.length) ' '
            ++ (Nat.repr n).toList).length - (Nat.repr n).toList.length
          = (List.replicate (15 - (Nat.repr n).toList.length) ' ').length := by
        simp only [List.length_append, List.length_replicate]
        omega
      rw [hlen, List.drop_left]
    · rw [format_right15, if_neg h]
      simp
